import Mathlib

/-!
Verification of the input-state manager of `ggez-goodies` (`src/input.rs`).

The manager translates physical key events into logical axes and buttons and
tweens axis positions over time.  The embedding below mirrors the Rust source:

* `f64` fields are modelled as exact rationals (`ℚ`);
* the three `HashMap`s are modelled as association lists whose `insert`
  replaces the value of an existing key in place (the observable semantics of
  `HashMap::insert`), and `lookupA` is `HashMap::get`;
* every public method of `InputManager` that takes `&mut self` is a function
  from manager to manager (paired with the returned value where there is one).
-/

namespace GgezInput

/-- Association-list lookup, mirroring `HashMap::get`. -/
def lookupA {α β : Type} [DecidableEq α] : List (α × β) → α → Option β
  | [], _ => none
  | (k, v) :: rest, a => if k = a then some v else lookupA rest a

/-- Association-list insert, mirroring `HashMap::insert`: an existing key's
value is replaced, otherwise the pair is appended. -/
def insertA {α β : Type} [DecidableEq α] : List (α × β) → α → β → List (α × β)
  | [], k, v => [(k, v)]
  | (k', v') :: rest, k, v =>
      if k' = k then (k, v) :: rest else (k', v') :: insertA rest k v

/-- Platform key code (`ggez::event::Keycode`), opaque to the manager. -/
abbrev Keycode : Type := ℕ

/-- `enum InputEvent { KeyEvent(Keycode) }`. -/
inductive InputEvent : Type where
  | keyEvent (k : Keycode)
deriving DecidableEq

/-- `enum InputEffect<Axes, Buttons> { Axis(Axes, bool), Button(Buttons) }`. -/
inductive InputEffect (Axes Buttons : Type) : Type where
  | axis (a : Axes) (positive : Bool)
  | button (b : Buttons)

/-- `struct AxisStatus { position, direction, acceleration, gravity: f64 }`. -/
structure AxisStatus where
  position : ℚ
  direction : ℚ
  acceleration : ℚ
  gravity : ℚ
deriving DecidableEq, Repr

/-- `impl Default for AxisStatus`. -/
def AxisStatus.default : AxisStatus :=
  { position := 0, direction := 0, acceleration := 4, gravity := 3 }

/-- `struct InputManager<Axes, Buttons>`. -/
structure InputManager (Axes Buttons : Type) where
  bindings : List (InputEvent × InputEffect Axes Buttons)
  axes : List (Axes × AxisStatus)
  buttons : List (Buttons × Bool)

variable {Axes Buttons : Type} [DecidableEq Axes] [DecidableEq Buttons]

namespace InputManager

/-- `InputManager::new()`. -/
def new : InputManager Axes Buttons :=
  { bindings := [], axes := [], buttons := [] }

/-- `InputManager::bind_key_to_axis`. -/
def bind_key_to_axis (m : InputManager Axes Buttons) (keycode : Keycode)
    (axis : Axes) (positive : Bool) : InputManager Axes Buttons :=
  { m with
    bindings := insertA m.bindings (InputEvent.keyEvent keycode)
      (InputEffect.axis axis positive),
    axes := insertA m.axes axis AxisStatus.default }

/-- `InputManager::bind_key_to_button`. -/
def bind_key_to_button (m : InputManager Axes Buttons) (keycode : Keycode)
    (button : Buttons) : InputManager Axes Buttons :=
  { m with
    bindings := insertA m.bindings (InputEvent.keyEvent keycode)
      (InputEffect.button button),
    buttons := insertA m.buttons button false }

/-- The per-axis body of `InputManager::update`'s loop. -/
def updateAxis (dt : ℚ) (a : AxisStatus) : AxisStatus :=
  if a.direction ≠ 0 then
    let abs_dx := min (a.acceleration * dt) (1 - |a.position|)
    let dx := if a.direction > 0 then abs_dx else -abs_dx
    { a with position := a.position + dx }
  else
    let abs_dx := min (a.gravity * dt) |a.position|
    let dx := if a.position > 0 then -abs_dx else abs_dx
    { a with position := a.position + dx }

/-- `InputManager::update(dt)`: advance every axis in the registry. -/
def update (m : InputManager Axes Buttons) (dt : ℚ) : InputManager Axes Buttons :=
  { m with axes := m.axes.map fun p => (p.1, updateAxis dt p.2) }

/-- `InputManager::update_effect`: apply a bound effect for a key-down
(`started = true`) or key-up (`started = false`) event. -/
def update_effect (m : InputManager Axes Buttons)
    (effect : InputEffect Axes Buttons) (started : Bool) :
    InputManager Axes Buttons :=
  match effect with
  | InputEffect.axis axis direction =>
      let axis_status := (lookupA m.axes axis).getD AxisStatus.default
      let axis_status :=
        if started then
          { axis_status with direction := if direction then 1 else -1 }
        else
          { axis_status with direction := 0 }
      { m with axes := insertA m.axes axis axis_status }
  | InputEffect.button button =>
      { m with buttons := insertA m.buttons button started }

/-- `InputManager::update_keydown`. -/
def update_keydown (m : InputManager Axes Buttons) (keycode : Option Keycode) :
    InputManager Axes Buttons :=
  match keycode with
  | none => m
  | some k =>
      match lookupA m.bindings (InputEvent.keyEvent k) with
      | none => m
      | some e => m.update_effect e true

/-- `InputManager::update_keyup`. -/
def update_keyup (m : InputManager Axes Buttons) (keycode : Option Keycode) :
    InputManager Axes Buttons :=
  match keycode with
  | none => m
  | some k =>
      match lookupA m.bindings (InputEvent.keyEvent k) with
      | none => m
      | some e => m.update_effect e false

/-- `InputManager::get_axis` (`&mut self`: returns the read position together
with the possibly-extended manager, since a missing axis is materialised). -/
def get_axis (m : InputManager Axes Buttons) (axis : Axes) :
    ℚ × InputManager Axes Buttons :=
  let axis_status := (lookupA m.axes axis).getD AxisStatus.default
  (axis_status.position, { m with axes := insertA m.axes axis axis_status })

/-- `InputManager::get_axis_raw` (same materialising read, of `direction`). -/
def get_axis_raw (m : InputManager Axes Buttons) (axis : Axes) :
    ℚ × InputManager Axes Buttons :=
  let axis_status := (lookupA m.axes axis).getD AxisStatus.default
  (axis_status.direction, { m with axes := insertA m.axes axis axis_status })

/-- `InputManager::get_button` (`&self`: a pure read, no materialisation). -/
def get_button (m : InputManager Axes Buttons) (button : Buttons) : Bool :=
  (lookupA m.buttons button).getD false

/-- `InputManager::get_button_down`. -/
def get_button_down (m : InputManager Axes Buttons) (button : Buttons) : Bool :=
  m.get_button button

/-- `InputManager::get_button_up`. -/
def get_button_up (m : InputManager Axes Buttons) (button : Buttons) : Bool :=
  !(m.get_button button)

/-- The per-axis body of `InputManager::reset_input_axes`'s loop. -/
def resetAxis (st : AxisStatus) : AxisStatus :=
  { st with position := 0, direction := 0 }

/-- `InputManager::reset_input_axes`. -/
def reset_input_axes (m : InputManager Axes Buttons) : InputManager Axes Buttons :=
  { m with axes := m.axes.map fun p => (p.1, resetAxis p.2) }

end InputManager

/-- The managers reachable from `InputManager::new()` by the public API,
with `update` restricted to nonnegative time deltas. -/
inductive Reachable : InputManager Axes Buttons → Prop where
  | new : Reachable InputManager.new
  | bind_axis {m} (k : Keycode) (a : Axes) (p : Bool) :
      Reachable m → Reachable (m.bind_key_to_axis k a p)
  | bind_button {m} (k : Keycode) (b : Buttons) :
      Reachable m → Reachable (m.bind_key_to_button k b)
  | keydown {m} (k : Option Keycode) :
      Reachable m → Reachable (m.update_keydown k)
  | keyup {m} (k : Option Keycode) :
      Reachable m → Reachable (m.update_keyup k)
  | getAxis {m} (a : Axes) : Reachable m → Reachable (m.get_axis a).2
  | getAxisRaw {m} (a : Axes) : Reachable m → Reachable (m.get_axis_raw a).2
  | reset {m} : Reachable m → Reachable m.reset_input_axes
  | step {m} (dt : ℚ) : Reachable m → 0 ≤ dt → Reachable (m.update dt)

/-- The data-model invariant of a single axis status: `position ∈ [-1, 1]`,
`direction ∈ {-1, 0, 1}`, and the default per-second rates (the API never
changes `acceleration` or `gravity`). -/
def WFStatus (st : AxisStatus) : Prop :=
  -1 ≤ st.position ∧ st.position ≤ 1 ∧
  (st.direction = -1 ∨ st.direction = 0 ∨ st.direction = 1) ∧
  st.acceleration = 4 ∧ st.gravity = 3

/-- A manager built by driving axis 10 to `-1` (key 0, negative sign) and then
pressing key 1 (positive sign), so that `direction = 1` while `position = -1`. -/
def stuckMgr : InputManager ℕ ℕ :=
  ((((InputManager.new.bind_key_to_axis 0 10 false).bind_key_to_axis 1 10 true).update_keydown
      (some 0)).update 1).update_keydown (some 1)

/-- A manager whose axis 10 has been driven to position `1` by a held key. -/
def drivenMgr : InputManager ℕ ℕ :=
  ((InputManager.new.bind_key_to_axis 0 10 true).update_keydown (some 0)).update 1

/-! ### Association-list lemmas -/

theorem lookupA_insertA {α β : Type} [DecidableEq α] (l : List (α × β))
    (k : α) (v : β) (a : α) :
    lookupA (insertA l k v) a = if k = a then some v else lookupA l a := by
  induction l with
  | nil => rfl
  | cons p rest ih =>
      obtain ⟨k', v'⟩ := p
      by_cases hk : k' = k
      · subst hk
        by_cases ha : k' = a <;> simp [insertA, lookupA, ha]
      · by_cases ha : k' = a
        · subst ha
          have : ¬ k = k' := fun h => hk h.symm
          simp [insertA, lookupA, hk, this]
        · simp [insertA, lookupA, hk, ha, ih]

theorem lookupA_map {α β γ : Type} [DecidableEq α] (f : β → γ)
    (l : List (α × β)) (a : α) :
    lookupA (l.map fun p => (p.1, f p.2)) a = (lookupA l a).map f := by
  induction l with
  | nil => rfl
  | cons p rest ih =>
      obtain ⟨k, v⟩ := p
      by_cases h : k = a <;> simp [lookupA, h, ih]

theorem lookupA_mem {α β : Type} [DecidableEq α] {l : List (α × β)}
    {a : α} {v : β} (h : lookupA l a = some v) : (a, v) ∈ l := by
  induction l with
  | nil => simp [lookupA] at h
  | cons p rest ih =>
      obtain ⟨k, v'⟩ := p
      by_cases hk : k = a
      · subst hk
        simp [lookupA] at h
        simp [h]
      · simp [lookupA, hk] at h
        exact List.mem_cons_of_mem _ (ih h)

theorem mem_insertA {α β : Type} [DecidableEq α] {l : List (α × β)}
    {k : α} {v : β} {p : α × β} (h : p ∈ insertA l k v) :
    p = (k, v) ∨ p ∈ l := by
  induction l with
  | nil => simp [insertA] at h; simp [h]
  | cons q rest ih =>
      obtain ⟨k', v'⟩ := q
      by_cases hk : k' = k
      · subst hk
        simp [insertA] at h
        rcases h with h | h
        · exact Or.inl h
        · exact Or.inr (List.mem_cons_of_mem _ h)
      · simp [insertA, hk] at h
        rcases h with h | h
        · exact Or.inr (by simp [h])
        · rcases ih h with h' | h'
          · exact Or.inl h'
          · exact Or.inr (List.mem_cons_of_mem _ h')

/-! ### Per-axis update lemmas -/

namespace InputManager

theorem updateAxis_direction (dt : ℚ) (st : AxisStatus) :
    (updateAxis dt st).direction = st.direction := by
  unfold updateAxis
  split_ifs <;> rfl

theorem updateAxis_acceleration (dt : ℚ) (st : AxisStatus) :
    (updateAxis dt st).acceleration = st.acceleration := by
  unfold updateAxis
  split_ifs <;> rfl

theorem updateAxis_gravity (dt : ℚ) (st : AxisStatus) :
    (updateAxis dt st).gravity = st.gravity := by
  unfold updateAxis
  split_ifs <;> rfl

/-- The clamped integration step keeps `position` in `[-1, 1]`, provided the
per-frame rates are nonnegative. -/
theorem updateAxis_position_bounds (dt : ℚ) (st : AxisStatus)
    (hlo : -1 ≤ st.position) (hhi : st.position ≤ 1)
    (hacc : 0 ≤ st.acceleration * dt) (hgrav : 0 ≤ st.gravity * dt) :
    -1 ≤ (updateAxis dt st).position ∧ (updateAxis dt st).position ≤ 1 := by
  have habs : |st.position| ≤ 1 := abs_le.mpr ⟨hlo, hhi⟩
  have h2 : st.position ≤ |st.position| := le_abs_self st.position
  have h3 : -|st.position| ≤ st.position := neg_abs_le st.position
  have hmin1 : min (st.acceleration * dt) (1 - |st.position|) ≤ 1 - |st.position| :=
    min_le_right _ _
  have hmin1' : 0 ≤ min (st.acceleration * dt) (1 - |st.position|) :=
    le_min hacc (by linarith)
  have hmin2 : min (st.gravity * dt) |st.position| ≤ |st.position| :=
    min_le_right _ _
  have hmin2' : 0 ≤ min (st.gravity * dt) |st.position| :=
    le_min hgrav (abs_nonneg _)
  unfold updateAxis
  split_ifs with hd hgt hp
  · constructor <;> simp only [] <;> linarith
  · constructor <;> simp only [] <;> linarith
  · have : |st.position| = st.position := abs_of_pos hp
    constructor <;> simp only [] <;> linarith
  · have : |st.position| = -st.position := abs_of_nonpos (not_lt.mp hp)
    constructor <;> simp only [] <;> linarith

/-- `update` with `dt = 0` leaves an in-range axis status exactly as it was. -/
theorem updateAxis_zero (st : AxisStatus)
    (hlo : -1 ≤ st.position) (hhi : st.position ≤ 1) :
    updateAxis 0 st = st := by
  have habs : |st.position| ≤ 1 := abs_le.mpr ⟨hlo, hhi⟩
  have h1 : min (0 : ℚ) (1 - |st.position|) = 0 := min_eq_left (by linarith)
  have h2 : min (0 : ℚ) |st.position| = 0 := min_eq_left (abs_nonneg _)
  unfold updateAxis
  split_ifs <;> simp [mul_zero, h1, h2]

end InputManager

/-! ### The reachability invariant -/

theorem wfStatus_default : WFStatus AxisStatus.default := by
  refine ⟨by norm_num [AxisStatus.default], by norm_num [AxisStatus.default], ?_, ?_, ?_⟩ <;>
    simp [AxisStatus.default]

omit [DecidableEq Buttons] in
theorem wfStatus_entry {m : InputManager Axes Buttons}
    (h : ∀ p ∈ m.axes, WFStatus p.2) (a : Axes) :
    WFStatus ((lookupA m.axes a).getD AxisStatus.default) := by
  cases hl : lookupA m.axes a with
  | none => simpa using wfStatus_default
  | some st => simpa using h (a, st) (lookupA_mem hl)

theorem wfStatus_setDirection {st : AxisStatus} (h : WFStatus st) {d : ℚ}
    (hd : d = -1 ∨ d = 0 ∨ d = 1) : WFStatus { st with direction := d } :=
  ⟨h.1, h.2.1, hd, h.2.2.2.1, h.2.2.2.2⟩

theorem wfStatus_updateAxis {st : AxisStatus} {dt : ℚ} (h : WFStatus st)
    (hdt : 0 ≤ dt) : WFStatus (InputManager.updateAxis dt st) := by
  obtain ⟨h1, h2, h3, h4, h5⟩ := h
  have hb := InputManager.updateAxis_position_bounds dt st h1 h2
    (by rw [h4]; linarith) (by rw [h5]; linarith)
  refine ⟨hb.1, hb.2, ?_, ?_, ?_⟩
  · rw [InputManager.updateAxis_direction]; exact h3
  · rw [InputManager.updateAxis_acceleration]; exact h4
  · rw [InputManager.updateAxis_gravity]; exact h5

theorem wfAxes_update_effect {m : InputManager Axes Buttons}
    (h : ∀ p ∈ m.axes, WFStatus p.2) (e : InputEffect Axes Buttons)
    (started : Bool) :
    ∀ p ∈ (m.update_effect e started).axes, WFStatus p.2 := by
  cases e with
  | axis a d =>
      intro p hp
      simp only [InputManager.update_effect] at hp
      rcases mem_insertA hp with hp' | hp'
      · subst hp'
        have hw := wfStatus_entry h a
        cases started with
        | true => simpa using wfStatus_setDirection hw (by cases d <;> simp)
        | false => simpa using wfStatus_setDirection hw (Or.inr (Or.inl rfl))
      · exact h p hp'
  | button b => exact h

/-- Every axis status of a manager reachable through the public API satisfies
the data-model invariant. -/
theorem wfAxes_reachable {m : InputManager Axes Buttons} (h : Reachable m) :
    ∀ p ∈ m.axes, WFStatus p.2 := by
  induction h with
  | new => intro p hp; simp [InputManager.new] at hp
  | bind_axis k a pos hm ih =>
      intro p hp
      simp only [InputManager.bind_key_to_axis] at hp
      rcases mem_insertA hp with hp' | hp'
      · subst hp'; exact wfStatus_default
      · exact ih p hp'
  | bind_button k b hm ih => exact ih
  | keydown k hm ih =>
      cases k with
      | none => exact ih
      | some kc =>
          simp only [InputManager.update_keydown]
          cases hl : lookupA _ (InputEvent.keyEvent kc) with
          | none => exact ih
          | some e => exact wfAxes_update_effect ih e true
  | keyup k hm ih =>
      cases k with
      | none => exact ih
      | some kc =>
          simp only [InputManager.update_keyup]
          cases hl : lookupA _ (InputEvent.keyEvent kc) with
          | none => exact ih
          | some e => exact wfAxes_update_effect ih e false
  | getAxis a hm ih =>
      intro p hp
      simp only [InputManager.get_axis] at hp
      rcases mem_insertA hp with hp' | hp'
      · subst hp'; exact wfStatus_entry ih a
      · exact ih p hp'
  | getAxisRaw a hm ih =>
      intro p hp
      simp only [InputManager.get_axis_raw] at hp
      rcases mem_insertA hp with hp' | hp'
      · subst hp'; exact wfStatus_entry ih a
      · exact ih p hp'
  | reset hm ih =>
      intro p hp
      simp only [InputManager.reset_input_axes] at hp
      obtain ⟨q, hq, rfl⟩ := List.mem_map.mp hp
      obtain ⟨h1, h2, h3, h4, h5⟩ := ih q hq
      exact ⟨by norm_num [InputManager.resetAxis],
        by norm_num [InputManager.resetAxis], Or.inr (Or.inl rfl), h4, h5⟩
  | step dt hm hdt ih =>
      intro p hp
      simp only [InputManager.update] at hp
      obtain ⟨q, hq, rfl⟩ := List.mem_map.mp hp
      exact wfStatus_updateAxis (ih q hq) hdt

theorem map_eq_self_of {α : Type} {l : List α} {f : α → α}
    (h : ∀ x ∈ l, f x = x) : l.map f = l := by
  induction l with
  | nil => rfl
  | cons a t ih =>
      simp [h a (List.mem_cons_self a t), ih fun x hx => h x (List.mem_cons_of_mem a hx)]

theorem updateAxis_position_of_direction_ne (dt : ℚ) (st : AxisStatus)
    (hd : st.direction ≠ 0) :
    (InputManager.updateAxis dt st).position =
      st.position + (if st.direction > 0 then 1 else -1) *
        min (st.acceleration * dt) (1 - |st.position|) := by
  by_cases hg : st.direction > 0 <;>
    simp [InputManager.updateAxis, hd, hg, neg_mul, one_mul]

theorem updateAxis_position_of_direction_eq (dt : ℚ) (st : AxisStatus)
    (hd : st.direction = 0) :
    (InputManager.updateAxis dt st).position =
      st.position - (if st.position > 0 then 1 else -1) *
        min (st.gravity * dt) |st.position| := by
  by_cases hp : st.position > 0 <;>
    simp [InputManager.updateAxis, hd, hp, neg_mul, one_mul, sub_eq_add_neg]

/-! ### The claims -/

/-- **C1.** For every axis state with `position ∈ [-1, 1]`, `direction ∈
{-1, 0, 1}` and positive rates (the data-model invariant of an axis status),
`update dt` with `dt ≥ 0` keeps every position in `[-1, 1]`; consequently no
sequence of bind, key-event, query, reset and `update (dt ≥ 0)` calls starting
from a fresh manager ever produces an axis position outside `[-1, 1]`. -/
theorem update_keeps_positions_in_range :
    (∀ (A B : Type) [DecidableEq A] [DecidableEq B]
        (m : InputManager A B) (dt : ℚ), 0 ≤ dt →
        (∀ p ∈ m.axes, -1 ≤ p.2.position ∧ p.2.position ≤ 1 ∧
            (p.2.direction = -1 ∨ p.2.direction = 0 ∨ p.2.direction = 1) ∧
            0 < p.2.acceleration ∧ 0 < p.2.gravity) →
        ∀ p ∈ (m.update dt).axes, -1 ≤ p.2.position ∧ p.2.position ≤ 1) ∧
    (∀ (A B : Type) [DecidableEq A] [DecidableEq B]
        (m : InputManager A B), Reachable m →
        ∀ p ∈ m.axes, -1 ≤ p.2.position ∧ p.2.position ≤ 1) := by
  constructor
  · intro A B _ _ m dt hdt h p hp
    simp only [InputManager.update] at hp
    obtain ⟨q, hq, rfl⟩ := List.mem_map.mp hp
    obtain ⟨h1, h2, _, h4, h5⟩ := h q hq
    exact InputManager.updateAxis_position_bounds dt q.2 h1 h2
      (mul_nonneg h4.le hdt) (mul_nonneg h5.le hdt)
  · intro A B _ _ m hm p hp
    obtain ⟨h1, h2, _⟩ := wfAxes_reachable hm p hp
    exact ⟨h1, h2⟩

/-- Witness for **C1** at a concrete manager with one axis. -/
theorem update_keeps_positions_in_range_witness :
    (∀ p ∈ ((InputManager.new.bind_key_to_axis 0 10 true :
        InputManager ℕ ℕ).update 1).axes,
        -1 ≤ p.2.position ∧ p.2.position ≤ 1) ∧
    (∀ p ∈ (InputManager.new.bind_key_to_axis 0 10 true :
        InputManager ℕ ℕ).axes,
        -1 ≤ p.2.position ∧ p.2.position ≤ 1) := by
  constructor
  · refine update_keeps_positions_in_range.1 ℕ ℕ _ 1 (by norm_num) ?_
    intro p hp
    simp [InputManager.bind_key_to_axis, InputManager.new, insertA] at hp
    subst hp
    norm_num [AxisStatus.default]
  · exact update_keeps_positions_in_range.2 ℕ ℕ _
      (Reachable.bind_axis 0 10 true Reachable.new)

/-- **C2.** One `update dt` call rewrites each registered axis status exactly
as the spec formula says: the other three fields are unchanged, and the
position moves by the signed clamped step (`acceleration`-driven when
`direction ≠ 0`, `gravity`-decay toward 0 when `direction = 0`). -/
theorem update_step_characterisation (A B : Type) [DecidableEq A]
    [DecidableEq B] (m : InputManager A B) (dt : ℚ) (a : A) (st : AxisStatus)
    (h : lookupA m.axes a = some st) :
    lookupA (m.update dt).axes a = some
      { position :=
          if st.direction ≠ 0 then
            st.position + (if st.direction > 0 then 1 else -1) *
              min (st.acceleration * dt) (1 - |st.position|)
          else
            st.position - (if st.position > 0 then 1 else -1) *
              min (st.gravity * dt) |st.position|,
        direction := st.direction,
        acceleration := st.acceleration,
        gravity := st.gravity } := by
  have hl : lookupA (m.update dt).axes a = some (InputManager.updateAxis dt st) := by
    unfold InputManager.update
    rw [lookupA_map, h]
    rfl
  rw [hl]
  congr 1
  by_cases hd : st.direction ≠ 0
  · have h1 := updateAxis_position_of_direction_ne dt st hd
    have h2 := InputManager.updateAxis_direction dt st
    have h3 := InputManager.updateAxis_acceleration dt st
    have h4 := InputManager.updateAxis_gravity dt st
    cases hu : InputManager.updateAxis dt st
    rw [hu] at h1 h2 h3 h4
    simp only [if_pos hd]
    simp_all
  · push_neg at hd
    have h1 := updateAxis_position_of_direction_eq dt st hd
    have h2 := InputManager.updateAxis_direction dt st
    have h3 := InputManager.updateAxis_acceleration dt st
    have h4 := InputManager.updateAxis_gravity dt st
    cases hu : InputManager.updateAxis dt st
    rw [hu] at h1 h2 h3 h4
    simp only [if_neg (not_not_intro hd)]
    simp_all

/-- Witness for **C2**: a held axis at position 1 stays at 1 (the accelerating
step is clamped to `1 - |position| = 0`). -/
theorem update_step_characterisation_witness :
    lookupA drivenMgr.axes 10 = some ⟨1, 1, 4, 3⟩ ∧
    lookupA ((drivenMgr.update (1/2)).axes) 10 = some ⟨1, 1, 4, 3⟩ := by
  have h : lookupA drivenMgr.axes 10 = some ⟨1, 1, 4, 3⟩ := by
    norm_num [drivenMgr, InputManager.new, InputManager.bind_key_to_axis,
      InputManager.update_keydown, InputManager.update_effect,
      InputManager.update, InputManager.updateAxis, AxisStatus.default,
      lookupA, insertA, InputEvent.keyEvent.injEq]
  refine ⟨h, ?_⟩
  rw [update_step_characterisation ℕ ℕ drivenMgr (1/2) 10 ⟨1, 1, 4, 3⟩ h]
  norm_num

/-- **C7.** Key events for unbound keys, and the absent-key value `none`, leave
the whole manager unchanged and signal no error. -/
theorem unbound_key_events_are_noops (A B : Type) [DecidableEq A]
    [DecidableEq B] (m : InputManager A B) (k : Keycode)
    (h : lookupA m.bindings (InputEvent.keyEvent k) = none) :
    m.update_keydown (some k) = m ∧ m.update_keyup (some k) = m ∧
    m.update_keydown none = m ∧ m.update_keyup none = m := by
  refine ⟨?_, ?_, rfl, rfl⟩
  · simp [InputManager.update_keydown, h]
  · simp [InputManager.update_keyup, h]

/-- Witness for **C7** on a fresh manager (no bindings at all). -/
theorem unbound_key_events_are_noops_witness :
    (InputManager.new : InputManager ℕ ℕ).update_keydown (some 0) =
      InputManager.new ∧
    (InputManager.new : InputManager ℕ ℕ).update_keyup (some 0) =
      InputManager.new ∧
    (InputManager.new : InputManager ℕ ℕ).update_keydown none =
      InputManager.new ∧
    (InputManager.new : InputManager ℕ ℕ).update_keyup none =
      InputManager.new :=
  unbound_key_events_are_noops ℕ ℕ InputManager.new 0 rfl

/-- **C9.** `update 0` changes nothing, for any manager whose axis positions
all lie in `[-1, 1]`. -/
theorem update_zero_is_identity (A B : Type) [DecidableEq A] [DecidableEq B]
    (m : InputManager A B)
    (h : ∀ p ∈ m.axes, -1 ≤ p.2.position ∧ p.2.position ≤ 1) :
    m.update 0 = m := by
  unfold InputManager.update
  rw [map_eq_self_of]
  · intro p hp
    obtain ⟨h1, h2⟩ := h p hp
    rw [InputManager.updateAxis_zero p.2 h1 h2]

/-- Witness for **C9** at a concrete one-axis manager. -/
theorem update_zero_is_identity_witness :
    (InputManager.new.bind_key_to_axis 0 10 true :
        InputManager ℕ ℕ).update 0 =
      InputManager.new.bind_key_to_axis 0 10 true := by
  refine update_zero_is_identity ℕ ℕ _ ?_
  intro p hp
  simp [InputManager.bind_key_to_axis, InputManager.new, insertA] at hp
  subst hp
  norm_num [AxisStatus.default]

/-- **C10.** `bind_key_to_button` always (re)sets the bound button's state to
`false`, even when the button is already present with state `true`. -/
theorem bind_key_to_button_resets_state (A B : Type) [DecidableEq A]
    [DecidableEq B] (m : InputManager A B) (k : Keycode) (b : B) :
    lookupA (m.bind_key_to_button k b).buttons b = some false := by
  unfold InputManager.bind_key_to_button
  rw [lookupA_insertA]
  simp

/-- **C3, counterexample.** The claim fails at the opposite boundary: in
`stuckMgr` axis 10 has `direction = 1` and `position = -1 < 1`, yet
`update 1` (a positive `dt`) leaves the position at `-1` instead of strictly
increasing it — the accelerating step is clamped to `1 - |position| = 0`. -/
theorem monotone_toward_target_counterexample :
    (stuckMgr.get_axis_raw 10).1 = 1 ∧
    (stuckMgr.get_axis 10).1 = -1 ∧
    ((stuckMgr.update 1).get_axis 10).1 = -1 := by
  norm_num [stuckMgr, InputManager.new, InputManager.bind_key_to_axis,
    InputManager.update_keydown, InputManager.update_effect,
    InputManager.update, InputManager.updateAxis, InputManager.get_axis,
    InputManager.get_axis_raw, AxisStatus.default, lookupA, insertA,
    InputEvent.keyEvent.injEq]

/-- **C3, amended.** With a positive acceleration and positive `dt`, an axis
whose position lies strictly inside `(-1, 1)` moves strictly toward the
direction's target and never past it, the direction itself is untouched, and
once the position sits on the boundary the direction points at, an update
leaves the status entirely unchanged.  (The amendment excludes the opposite
boundary: an axis parked exactly at `∓1` with direction `±1` is frozen, as the
counterexample shows.) -/
theorem monotone_toward_target_amended (st : AxisStatus) (dt : ℚ)
    (hacc : 0 < st.acceleration) (hdt : 0 < dt) :
    (InputManager.updateAxis dt st).direction = st.direction ∧
    (st.direction = 1 → -1 < st.position → st.position < 1 →
        st.position < (InputManager.updateAxis dt st).position ∧
        (InputManager.updateAxis dt st).position ≤ 1) ∧
    (st.direction = -1 → -1 < st.position → st.position < 1 →
        (InputManager.updateAxis dt st).position < st.position ∧
        -1 ≤ (InputManager.updateAxis dt st).position) ∧
    (st.direction = 1 → st.position = 1 →
        InputManager.updateAxis dt st = st) ∧
    (st.direction = -1 → st.position = -1 →
        InputManager.updateAxis dt st = st) := by
  have hstep : 0 < st.acceleration * dt := mul_pos hacc hdt
  refine ⟨InputManager.updateAxis_direction dt st, ?_, ?_, ?_, ?_⟩
  · intro hdir hlo hhi
    have habs : |st.position| < 1 := abs_lt.mpr ⟨hlo, hhi⟩
    have hmin : 0 < min (st.acceleration * dt) (1 - |st.position|) :=
      lt_min hstep (by linarith)
    have hmin' : min (st.acceleration * dt) (1 - |st.position|) ≤
        1 - |st.position| := min_le_right _ _
    have h2 : st.position ≤ |st.position| := le_abs_self st.position
    have hne : st.direction ≠ 0 := by rw [hdir]; norm_num
    have hgt : st.direction > 0 := by rw [hdir]; norm_num
    rw [updateAxis_position_of_direction_ne dt st hne, if_pos hgt]
    constructor <;> linarith
  · intro hdir hlo hhi
    have habs : |st.position| < 1 := abs_lt.mpr ⟨hlo, hhi⟩
    have hmin : 0 < min (st.acceleration * dt) (1 - |st.position|) :=
      lt_min hstep (by linarith)
    have hmin' : min (st.acceleration * dt) (1 - |st.position|) ≤
        1 - |st.position| := min_le_right _ _
    have h3 : -|st.position| ≤ st.position := neg_abs_le st.position
    have hne : st.direction ≠ 0 := by rw [hdir]; norm_num
    have hgt : ¬ st.direction > 0 := by rw [hdir]; norm_num
    rw [updateAxis_position_of_direction_ne dt st hne, if_neg hgt]
    constructor <;> linarith
  · intro hdir hpos
    have hmin : min (st.acceleration * dt) (1 - |st.position|) = 0 := by
      rw [hpos]
      norm_num
      linarith
    unfold InputManager.updateAxis
    rw [if_pos (show st.direction ≠ 0 by rw [hdir]; norm_num)]
    simp only [if_pos (show st.direction > 0 by rw [hdir]; norm_num), hmin,
      add_zero]
  · intro hdir hpos
    have hmin : min (st.acceleration * dt) (1 - |st.position|) = 0 := by
      rw [hpos]
      norm_num
      linarith
    unfold InputManager.updateAxis
    rw [if_pos (show st.direction ≠ 0 by rw [hdir]; norm_num)]
    simp only [if_neg (show ¬ st.direction > 0 by rw [hdir]; norm_num), hmin,
      neg_zero, add_zero]

/-- Witness for the amended **C3**: from rest with direction `+1`, one step of
`dt = 1/8` strictly raises the position and stays within bounds. -/
theorem monotone_toward_target_amended_witness :
    (0 : ℚ) < (InputManager.updateAxis (1/8) ⟨0, 1, 4, 3⟩).position ∧
    (InputManager.updateAxis (1/8) ⟨0, 1, 4, 3⟩).position ≤ 1 :=
  (monotone_toward_target_amended ⟨0, 1, 4, 3⟩ (1/8) (by norm_num)
    (by norm_num)).2.1 rfl (by norm_num) (by norm_num)

/-- **C4, counterexample.** `bind_key_to_axis` does *not* preserve an existing
axis entry: in `drivenMgr` axis 10 sits at position 1, and binding a second
key to the same axis resets its tween state to the default. -/
theorem bind_preserves_existing_axis_counterexample :
    lookupA drivenMgr.axes 10 = some ⟨1, 1, 4, 3⟩ ∧
    lookupA ((drivenMgr.bind_key_to_axis 1 10 false).axes) 10 =
      some ⟨0, 0, 4, 3⟩ ∧
    (⟨0, 0, 4, 3⟩ : AxisStatus) ≠ ⟨1, 1, 4, 3⟩ := by
  refine ⟨?_, ?_, ?_⟩
  · norm_num [drivenMgr, InputManager.new, InputManager.bind_key_to_axis,
      InputManager.update_keydown, InputManager.update_effect,
      InputManager.update, InputManager.updateAxis, AxisStatus.default,
      lookupA, insertA, InputEvent.keyEvent.injEq]
  · norm_num [drivenMgr, InputManager.new, InputManager.bind_key_to_axis,
      InputManager.update_keydown, InputManager.update_effect,
      InputManager.update, InputManager.updateAxis, AxisStatus.default,
      lookupA, insertA, InputEvent.keyEvent.injEq]
  · simp only [ne_eq, AxisStatus.mk.injEq, not_and]
    norm_num

/-- **C4, amended.** `bind_key_to_axis` always installs a fresh default-valued
entry for the bound axis — overwriting any existing tween state — and leaves
every other axis entry untouched. -/
theorem bind_key_to_axis_inserts_default (A B : Type) [DecidableEq A]
    [DecidableEq B] (m : InputManager A B) (k : Keycode) (a : A) (p : Bool) :
    lookupA (m.bind_key_to_axis k a p).axes a = some AxisStatus.default ∧
    ∀ a', a' ≠ a →
      lookupA (m.bind_key_to_axis k a p).axes a' = lookupA m.axes a' := by
  constructor
  · unfold InputManager.bind_key_to_axis
    rw [lookupA_insertA]
    simp
  · intro a' h
    unfold InputManager.bind_key_to_axis
    rw [lookupA_insertA, if_neg fun e => h e.symm]

/-- Witness for the amended **C4** on a fresh manager. -/
theorem bind_key_to_axis_inserts_default_witness :
    lookupA ((InputManager.new.bind_key_to_axis 0 10 true :
        InputManager ℕ ℕ).axes) 10 = some AxisStatus.default ∧
    lookupA ((InputManager.new.bind_key_to_axis 0 10 true :
        InputManager ℕ ℕ).axes) 11 =
      lookupA (InputManager.new : InputManager ℕ ℕ).axes 11 :=
  ⟨(bind_key_to_axis_inserts_default ℕ ℕ InputManager.new 0 10 true).1,
   (bind_key_to_axis_inserts_default ℕ ℕ InputManager.new 0 10 true).2 11
     (by norm_num)⟩

/-- **C5.** For a key bound to `Axis(a, sign)` and an axis `a` present in the
registry, a key-down sets `a`'s direction to `+1`/`-1` per the bound sign and
a key-up sets it to `0`, leaving position, acceleration and gravity alone. -/
theorem key_events_set_direction (A B : Type) [DecidableEq A] [DecidableEq B]
    (m : InputManager A B) (k : Keycode) (a : A) (sign : Bool)
    (st : AxisStatus)
    (hb : lookupA m.bindings (InputEvent.keyEvent k) =
      some (InputEffect.axis a sign))
    (ha : lookupA m.axes a = some st) :
    lookupA (m.update_keydown (some k)).axes a =
      some { st with direction := if sign then 1 else -1 } ∧
    lookupA (m.update_keyup (some k)).axes a =
      some { st with direction := 0 } := by
  constructor
  · simp only [InputManager.update_keydown, hb]
    simp only [InputManager.update_effect, ha]
    rw [lookupA_insertA]
    simp
  · simp only [InputManager.update_keyup, hb]
    simp only [InputManager.update_effect, ha]
    rw [lookupA_insertA]
    simp

/-- Witness for **C5** on a one-binding manager. -/
theorem key_events_set_direction_witness :
    lookupA ((InputManager.new.bind_key_to_axis 0 10 true :
        InputManager ℕ ℕ).update_keydown (some 0)).axes 10 =
      some { AxisStatus.default with direction := 1 } ∧
    lookupA ((InputManager.new.bind_key_to_axis 0 10 true :
        InputManager ℕ ℕ).update_keyup (some 0)).axes 10 =
      some { AxisStatus.default with direction := 0 } := by
  have h := key_events_set_direction ℕ ℕ
    (InputManager.new.bind_key_to_axis 0 10 true) 0 10 true AxisStatus.default
    (by norm_num [InputManager.new, InputManager.bind_key_to_axis, lookupA,
      insertA])
    (by norm_num [InputManager.new, InputManager.bind_key_to_axis, lookupA,
      insertA])
  simpa using h

/-- **C6.** `reset_input_axes` zeroes position and direction of every
registered axis while keeping its acceleration and gravity, leaves the binding
table and the button registry untouched, and a subsequent `update dt` cannot
re-assert a held key's direction: every direction is still `0` afterwards. -/
theorem reset_zeroes_axes (A B : Type) [DecidableEq A] [DecidableEq B]
    (m : InputManager A B) :
    (∀ (a : A) (st : AxisStatus), lookupA m.axes a = some st →
        lookupA m.reset_input_axes.axes a =
          some { st with position := 0, direction := 0 }) ∧
    m.reset_input_axes.bindings = m.bindings ∧
    m.reset_input_axes.buttons = m.buttons ∧
    (∀ (dt : ℚ) (a : A) (st' : AxisStatus),
        lookupA (m.reset_input_axes.update dt).axes a = some st' →
        st'.direction = 0) := by
  refine ⟨?_, rfl, rfl, ?_⟩
  · intro a st h
    unfold InputManager.reset_input_axes
    rw [lookupA_map, h]
    rfl
  · intro dt a st' h
    unfold InputManager.update InputManager.reset_input_axes at h
    rw [lookupA_map, lookupA_map] at h
    cases hl : lookupA m.axes a with
    | none => rw [hl] at h; simp at h
    | some st =>
        rw [hl] at h
        simp only [Option.map_some', Option.some.injEq] at h
        rw [← h, InputManager.updateAxis_direction]
        rfl

/-- Witness for **C6** at `drivenMgr` (axis 10 driven to position 1 with the
key still held). -/
theorem reset_zeroes_axes_witness :
    lookupA drivenMgr.reset_input_axes.axes 10 = some ⟨0, 0, 4, 3⟩ ∧
    lookupA ((drivenMgr.reset_input_axes.update 1).axes) 10 =
      some ⟨0, 0, 4, 3⟩ ∧
    (⟨0, 0, 4, 3⟩ : AxisStatus).direction = 0 := by
  have h10 : lookupA drivenMgr.axes 10 = some ⟨1, 1, 4, 3⟩ := by
    norm_num [drivenMgr, InputManager.new, InputManager.bind_key_to_axis,
      InputManager.update_keydown, InputManager.update_effect,
      InputManager.update, InputManager.updateAxis, AxisStatus.default,
      lookupA, insertA, InputEvent.keyEvent.injEq]
  have h1 := (reset_zeroes_axes ℕ ℕ drivenMgr).1 10 ⟨1, 1, 4, 3⟩ h10
  have hl : lookupA ((drivenMgr.reset_input_axes.update 1).axes) 10 =
      some ⟨0, 0, 4, 3⟩ := by
    unfold InputManager.update
    rw [lookupA_map, h1]
    norm_num [InputManager.updateAxis]
  exact ⟨h1, hl, (reset_zeroes_axes ℕ ℕ drivenMgr).2.2.2 1 10 ⟨0, 0, 4, 3⟩ hl⟩

/-- **C8.** Reading an unknown axis returns position `0` (raw read: direction
`0`) and materialises a default entry; reading an unknown button returns
`false`, and — `get_button` borrowing the manager immutably, as in the source —
cannot touch any registry. -/
theorem unknown_reads_default (A B : Type) [DecidableEq A] [DecidableEq B]
    (m : InputManager A B) (a : A) (b : B)
    (ha : lookupA m.axes a = none) (hb : lookupA m.buttons b = none) :
    (m.get_axis a).1 = 0 ∧ (m.get_axis_raw a).1 = 0 ∧
    lookupA (m.get_axis a).2.axes a = some AxisStatus.default ∧
    lookupA (m.get_axis_raw a).2.axes a = some AxisStatus.default ∧
    m.get_button b = false ∧ m.get_button_down b = false := by
  refine ⟨?_, ?_, ?_, ?_, ?_, ?_⟩ <;>
    simp [InputManager.get_axis, InputManager.get_axis_raw,
      InputManager.get_button, InputManager.get_button_down, ha, hb,
      lookupA_insertA, AxisStatus.default]

/-- Witness for **C8** on a fresh manager. -/
theorem unknown_reads_default_witness :
    ((InputManager.new : InputManager ℕ ℕ).get_axis 10).1 = 0 ∧
    ((InputManager.new : InputManager ℕ ℕ).get_axis_raw 10).1 = 0 ∧
    lookupA ((InputManager.new : InputManager ℕ ℕ).get_axis 10).2.axes 10 =
      some AxisStatus.default ∧
    lookupA ((InputManager.new :
        InputManager ℕ ℕ).get_axis_raw 10).2.axes 10 =
      some AxisStatus.default ∧
    (InputManager.new : InputManager ℕ ℕ).get_button 7 = false ∧
    (InputManager.new : InputManager ℕ ℕ).get_button_down 7 = false :=
  unknown_reads_default ℕ ℕ InputManager.new 10 7 rfl rfl

end GgezInput
